import Mathlib

/-!
# Verification of the semantic retrieval engine in `LLM Core/rag_system.py`

This file gives a shallow embedding of the class `RAGSystem` from
`src/LLM Core/rag_system.py` and proves properties of its operations.

Modelling conventions:
* Python menu-item dicts become `MenuItem` records with `Option String`
  fields (`none` = key absent).  Python truthiness of a string value is
  emptiness, so `not item[field]` becomes `value = ""`.
* Embedding vectors become `List ℚ` (exact stand-in for float32 rows).
* The external embedding model `self.encoder.encode` is an opaque
  parameter `encode : String → Option Vec`; `none` models the call
  raising an exception.  Batch encoding of a list of texts is the
  all-or-nothing map `omap encode` (the real call embeds the whole
  batch in one invocation).
* `faiss.normalize_L2` is an opaque per-row parameter
  `normalize : Vec → Vec` (it rescales each row in place, preserving
  the number of rows, which is all the claims depend on).
* `faiss.IndexFlatIP` holds the list of added rows; its exact
  brute-force `search` is modelled as: score every stored row by inner
  product with the query row, sort by descending score with ties broken
  by ascending id (the deterministic behaviour of the exact flat
  index), and take the first `k`.  `k` is never larger than the number
  of stored rows in the states the claims exercise, so the `-1`
  padding faiss emits for `k > ntotal` is not modelled.
* Exceptions become `Except PyErr`; a caught exception is whatever the
  handler returns.
* `json.loads` is external; a `.json` corpus is therefore modelled as
  the already-parsed list of records (`Corpus.jsonArr`), which
  `_load_menu` returns directly, mirroring `return json.loads(content)`.
  The `---`-delimited text format is parsed character by character from
  the file content, mirroring `str.strip`/`str.split`/`str.lower`.
-/

namespace RagSys

/-- One embedding vector (a float32 row in the Python code). -/
abbrev Vec := List ℚ

/-- A menu record: the dict fields the code reads.  `none` = key absent. -/
structure MenuItem where
  name : Option String
  description : Option String
  category : Option String
  price : Option String
  ingredients : Option String
deriving DecidableEq

/-- The exceptions the embedded code can raise. -/
inductive PyErr where
  /-- `ValueError('No menu data available to build index')` in `_build_faiss_index`. -/
  | noMenuData
  /-- `KeyError` from `item['name']` / `item['description']` on a record missing the key. -/
  | keyError
  /-- an exception raised by the embedding model call. -/
  | encodeFail
  /-- `ValueError('RAG system not properly initialized')` in `search_index`. -/
  | notInitialized
deriving DecidableEq

/-- One entry of the list returned by `search_index`. -/
structure SearchResult where
  name : String
  description : String
  price : String
  category : String
  similarity_score : ℚ
deriving DecidableEq

/-- The mutable state of a `RAGSystem` object: `self.menu_data` and the
faiss index rows (`self.index`; `self.embeddings` holds the same rows). -/
structure RAGState where
  menu_data : List MenuItem
  index : Option (List Vec)
deriving DecidableEq

/-- All-or-nothing traversal: the batched embedding call either returns a
vector for every text or raises. -/
def omap (f : α → Option β) : List α → Option (List β)
  | [] => some []
  | a :: l => (f a).bind fun b => (omap f l).map fun bs => b :: bs

/-- `RAGSystem._validate_menu_item`: `name` and `description` must be
present with a truthy (non-empty) value. -/
def validate_menu_item (item : MenuItem) : Bool :=
  (match item.name with | some s => !(s == "") | none => false) &&
  (match item.description with | some s => !(s == "") | none => false)

/-- The text embedded for one record in `_build_faiss_index`:
`f"{item['name']}: {item['description']}"` plus the optional labelled
`Category:` / `Ingredients:` segments.  `none` models the `KeyError`
raised when `name` or `description` is absent. -/
def descOf (item : MenuItem) : Option String :=
  match item.name, item.description with
  | some n, some d =>
    some (n ++ ": " ++ d
      ++ (match item.category with | some c => " Category: " ++ c | none => "")
      ++ (match item.ingredients with | some i => " Ingredients: " ++ i | none => ""))
  | _, _ => none

section Engine

variable (encode : String → Option Vec) (normalize : Vec → Vec)

/-- `RAGSystem._build_faiss_index`: fail on an empty menu, build the
description texts (may raise `KeyError`), embed the whole batch (may
raise), L2-normalize every row and add them all to a fresh flat index. -/
def build_faiss_index (menu : List MenuItem) : Except PyErr (List Vec) :=
  if menu.isEmpty then .error .noMenuData
  else
    match omap descOf menu with
    | none => .error .keyError
    | some descriptions =>
      match omap encode descriptions with
      | none => .error .encodeFail
      | some embeddings => .ok (embeddings.map normalize)

/-- The texts handed to the embedding model by a call to
`add_menu_item` on a valid record: `_build_faiss_index` re-embeds the
description of *every* record of the grown menu, not just the new one. -/
def addItemEncodedTexts (menu : List MenuItem) (item : MenuItem) : List String :=
  if validate_menu_item item then (omap descOf (menu ++ [item])).getD [] else []

/-- Inner product of two rows (the score `IndexFlatIP` assigns). -/
def dot (a b : Vec) : ℚ := (List.zipWith (fun x y => x * y) a b).sum

/-- Every stored row paired with its id and its score against the query row. -/
def scoredPairs (vecs : List Vec) (q : Vec) : List (ℕ × ℚ) :=
  vecs.enum.map fun p => (p.1, dot q p.2)

/-- Result order of the exact flat index: higher score first, ties by
ascending id. -/
def pairOrder (a b : ℕ × ℚ) : Prop := b.2 < a.2 ∨ (a.2 = b.2 ∧ a.1 ≤ b.1)

instance : DecidableRel pairOrder := fun a b =>
  decidable_of_iff (b.2 < a.2 ∨ (a.2 = b.2 ∧ a.1 ≤ b.1)) Iff.rfl

instance : IsTotal (ℕ × ℚ) pairOrder where
  total a b := by
    rcases lt_trichotomy a.2 b.2 with h | h | h
    · exact Or.inr (Or.inl h)
    · rcases Nat.le_total a.1 b.1 with h1 | h1
      · exact Or.inl (Or.inr ⟨h, h1⟩)
      · exact Or.inr (Or.inr ⟨h.symm, h1⟩)
    · exact Or.inl (Or.inl h)

instance : IsTrans (ℕ × ℚ) pairOrder where
  trans a b c hab hbc := by
    rcases hab with h1 | ⟨e1, l1⟩
    · rcases hbc with h2 | ⟨e2, _⟩
      · exact Or.inl (h2.trans h1)
      · exact Or.inl (e2 ▸ h1)
    · rcases hbc with h2 | ⟨e2, l2⟩
      · exact Or.inl (e1 ▸ h2)
      · exact Or.inr ⟨e1.trans e2, l1.trans l2⟩

/-- `self.index.search(query_embedding, k)` on the exact flat index:
the `k` best (score, id) pairs, best first. -/
def faissTopK (vecs : List Vec) (q : Vec) (k : ℕ) : List (ℕ × ℚ) :=
  (List.insertionSort pairOrder (scoredPairs vecs q)).take k

/-- The pairs surviving the `if score >= threshold` filter in
`search_index`. -/
def keptPairs (vecs : List Vec) (q : Vec) (k : ℕ) (threshold : ℚ) : List (ℕ × ℚ) :=
  (faissTopK vecs q k).filter fun p => decide (threshold ≤ p.2)

/-- Build one result dict from a kept (id, score) pair:
`self.menu_data[idx]` (IndexError when out of range), `item['name']` and
`item['description']` (KeyError when absent), `.get` with `'N/A'`
defaults for `price` and `category`. -/
def mkResult (menu : List MenuItem) (p : ℕ × ℚ) : Option SearchResult :=
  match menu.get? p.1 with
  | none => none
  | some item =>
    match item.name, item.description with
    | some n, some d => some ⟨n, d, item.price.getD "N/A", item.category.getD "N/A", p.2⟩
    | _, _ => none

/-- The result-building loop of `search_index`; `none` models an
exception escaping the loop (the partial list is discarded). -/
def formatResults (menu : List MenuItem) : List (ℕ × ℚ) → Option (List SearchResult)
  | [] => some []
  | p :: ps =>
    match mkResult menu p, formatResults menu ps with
    | some r, some rs => some (r :: rs)
    | _, _ => none

/-- `RAGSystem.search_index`.  The not-initialized check sits *before*
the `try:` block and raises; everything inside the `try:` that fails is
caught and turned into `return []` ("graceful degradation"). -/
def search_index (st : RAGState) (query : String) (top_k : ℕ) (threshold : ℚ) :
    Except PyErr (List SearchResult) :=
  match st.index with
  | none => .error .notInitialized
  | some vecs =>
    match encode query with
    | none => .ok []
    | some qe =>
      match formatResults st.menu_data
          (keptPairs vecs (normalize qe) (min top_k st.menu_data.length) threshold) with
      | none => .ok []
      | some rs => .ok rs

/-- `f"{score:.2f}"`: the similarity score printed with two decimals.
Exact decimal rounding of the rational score stands in for the float
formatting (half-way cases do not arise from float values). -/
def fmt2 (x : ℚ) : String :=
  let n : ℤ := round (x * 100)
  (if n < 0 then "-" else "") ++ toString (n.natAbs / 100) ++ "." ++
    (if n.natAbs % 100 < 10 then "0" else "") ++ toString (n.natAbs % 100)

/-- One numbered entry of the context string (`i` is the 1-based number
from `enumerate(results, 1)`). -/
def resultBlock (i : ℕ) (r : SearchResult) : String :=
  (toString i ++ ". **" ++ r.name ++ "**") ++ (" (Price: " ++ r.price ++ " VND)") ++ "\n" ++
  ("   Description: " ++ r.description) ++ "\n" ++
  (if r.category = "N/A" then "" else ("   Category: " ++ r.category) ++ "\n") ++
  ("   Relevance: " ++ fmt2 r.similarity_score) ++ "\n\n"

/-- The rendering loop of `get_context_for_llms`, carrying the 1-based
counter. -/
def renderBlocks : ℕ → List SearchResult → String
  | _, [] => ""
  | i, r :: rs => resultBlock i r ++ renderBlocks (i + 1) rs

/-- The context-formatting part of `get_context_for_llms`: the fixed
sentinel for no results, otherwise the header plus one numbered block
per result. -/
def renderContext (results : List SearchResult) : String :=
  if results = [] then "No relevant menu items found"
  else "Here are the relevant menu items:\n\n" ++ renderBlocks 1 results

/-- `RAGSystem.get_context_for_llms`: search with the caller's `top_k`
and the *default* threshold `0.3` of `search_index`, then format. -/
def get_context_for_llms (st : RAGState) (query : String) (top_k : ℕ) :
    Except PyErr String :=
  match search_index encode normalize st query top_k (3/10) with
  | .error err => .error err
  | .ok results => .ok (renderContext results)

/-- `RAGSystem.add_menu_item`: validate; on success append to
`self.menu_data` **then** rebuild the whole index.  If the rebuild
raises, the exception propagates with the record already appended and
the old index still in place. -/
def add_menu_item (st : RAGState) (item : MenuItem) : RAGState × Except PyErr Bool :=
  if validate_menu_item item then
    match build_faiss_index encode normalize (st.menu_data ++ [item]) with
    | .ok vecs => (⟨st.menu_data ++ [item], some vecs⟩, .ok true)
    | .error e => (⟨st.menu_data ++ [item], st.index⟩, .error e)
  else (st, .ok false)

end Engine

/-! ## Corpus loading (`RAGSystem._load_menu`) -/

/-- `str.strip()` (both ends, Unicode whitespace). -/
def pyStrip (s : List Char) : List Char :=
  ((s.dropWhile Char.isWhitespace).reverse.dropWhile Char.isWhitespace).reverse

/-- `str.split(sep)` for a non-empty separator, fuel-structured:
leftmost non-overlapping occurrences cut the string. -/
def pySplitSeqAux (sep : List Char) : ℕ → List Char → List Char → List (List Char)
  | 0, acc, xs => [acc.reverse ++ xs]
  | fuel + 1, acc, xs =>
    if sep.isPrefixOf xs then
      acc.reverse :: pySplitSeqAux sep fuel [] (xs.drop sep.length)
    else
      match xs with
      | [] => [acc.reverse]
      | c :: rest => pySplitSeqAux sep fuel (c :: acc) rest

/-- `str.split(sep)` (the fuel `s.length + 1` always suffices). -/
def pySplitSeq (sep s : List Char) : List (List Char) :=
  pySplitSeqAux sep (s.length + 1) [] s

/-- `line.split(':', 1)` guarded by `if ':' not in line`: `none` when the
character does not occur, otherwise the parts before and after its first
occurrence. -/
def pySplitFirst (c : Char) : List Char → Option (List Char × List Char)
  | [] => none
  | x :: xs =>
    if x = c then some ([], xs)
    else
      match pySplitFirst c xs with
      | none => none
      | some kv => some (x :: kv.1, kv.2)

/-- The dict built by the line loop of `_load_menu`:
`item_dict[key.strip().lower()] = value.strip()`, later assignments
overwriting earlier ones (lookup takes the last binding). -/
def dictOfLines (lines : List (List Char)) : List (String × String) :=
  lines.foldl
    (fun d line =>
      match pySplitFirst ':' line with
      | none => d
      | some kv =>
        d ++ [(String.mk ((pyStrip kv.1).map Char.toLower), String.mk (pyStrip kv.2))])
    []

/-- Python dict lookup on the assignment list (last assignment wins). -/
def dictGet (d : List (String × String)) (k : String) : Option String :=
  d.reverse.lookup k

/-- The fields the code reads from one parsed segment dict. -/
def itemOfDict (d : List (String × String)) : MenuItem :=
  ⟨dictGet d "name", dictGet d "description", dictGet d "category",
   dictGet d "price", dictGet d "ingredients"⟩

/-- One `---`-separated segment of the text format: skipped when blank,
parsed into a dict line by line, kept only when
`_validate_menu_item` passes. -/
def parseSegment (raw : List Char) : Option MenuItem :=
  if pyStrip raw = [] then none
  else
    let item := itemOfDict (dictOfLines (pySplitSeq ['\n'] (pyStrip raw)))
    if validate_menu_item item then some item else none

/-- The text-format branch of `_load_menu`:
`content.strip().split('---')`, then the per-segment loop. -/
def parseText (content : String) : List MenuItem :=
  (pySplitSeq ['-', '-', '-'] (pyStrip content.data)).filterMap parseSegment

/-- A corpus file as `_load_menu` sees it: a `.json` file whose content
parses to a list of records, or a text file with raw content. -/
inductive Corpus where
  | jsonArr (items : List MenuItem)
  | textFmt (content : String)

/-- `RAGSystem._load_menu`: the `.json` branch returns the parsed data
directly (`return json.loads(content)`) without any validation; the text
branch parses and validates segment by segment. -/
def load_menu : Corpus → List MenuItem
  | .jsonArr items => items
  | .textFmt content => parseText content

/-- `RAGSystem.__init__` after the model load: load the menu, build the
index, re-raise any failure. -/
def ragInit (encode : String → Option Vec) (normalize : Vec → Vec) (c : Corpus) :
    Except PyErr RAGState :=
  match build_faiss_index encode normalize (load_menu c) with
  | .ok vecs => .ok ⟨load_menu c, some vecs⟩
  | .error e => .error e

/-- `get_stats`'s `index_size`: `self.index.ntotal if self.index else 0`. -/
def indexSize (st : RAGState) : ℕ :=
  match st.index with
  | none => 0
  | some v => v.length

/-! ## Concrete objects used by witnesses and counterexamples -/

/-- A valid record. -/
def itemPho : MenuItem := ⟨some "Pho", some "soup", none, none, none⟩

/-- A second valid record. -/
def itemTea : MenuItem := ⟨some "Tea", some "drink", none, none, none⟩

/-- An invalid record: `description` key absent. -/
def itemNoDesc : MenuItem := ⟨some "Pho", none, none, none, none⟩

/-- An invalid record: `description` present but empty. -/
def itemEmptyDesc : MenuItem := ⟨some "a", some "", none, none, none⟩

/-- A record with a price and a category, for rendering. -/
def itemFull : MenuItem := ⟨some "Pho", some "soup", some "Food", some "50000", none⟩

/-- An embedding model that succeeds on every text. -/
def encodeConst : String → Option Vec := fun _ => some [1]

/-- An embedding model distinguishing the two records. -/
def encodeTwo : String → Option Vec :=
  fun s => if s = "Pho: soup" then some [1] else some [2]

/-- An embedding model that raises on the text of `itemTea` only. -/
def encodeFailTea : String → Option Vec :=
  fun s => if s = "Tea: drink" then none else some [1]

/-- An embedding model that always raises. -/
def encodeNone : String → Option Vec := fun _ => none

/-- A two-dimensional embedding model mapping every text to `[1, 0]`. -/
def encodePlane : String → Option Vec := fun _ => some [1, 0]

/-- An initialized one-record state, consistent with `encodeTwo` and
`encodeFailTea` and the identity normalizer. -/
def st1 : RAGState := ⟨[itemPho], some [[1]]⟩

/-- An initialized two-record state with orthogonal unit rows. -/
def st2 : RAGState := ⟨[itemPho, itemTea], some [[1, 0], [0, 1]]⟩

/-- A concrete text corpus: one valid segment and one segment missing
`description`. -/
def textCorpus : String := "name: Pho\ndescription: soup\n---\nname: Bad"

/-- A concrete search result with price, category and score 1/2. -/
def resFull : SearchResult := ⟨"Pho", "soup", "50000", "Food", 1/2⟩

end RagSys

namespace RagSys

/-! ## Helper lemmas about batched embedding and index building -/

theorem omap_length {f : α → Option β} :
    ∀ {l : List α} {l2 : List β}, omap f l = some l2 → l2.length = l.length := by
  intro l
  induction l with
  | nil => intro l2 h; simp [omap] at h; simp [h.symm]
  | cons a l ih =>
    intro l2 h
    simp only [omap] at h
    cases hfa : f a with
    | none => rw [hfa] at h; simp at h
    | some b =>
      rw [hfa] at h
      cases ho : omap f l with
      | none => rw [ho] at h; simp at h
      | some bs =>
        rw [ho] at h
        simp at h
        rw [h.symm]
        simp [ih ho]

theorem omap_append_some {f : α → Option β} :
    ∀ {l₁ : List α} {b₁ : List β} {l₂ : List α} {b₂ : List β},
      omap f l₁ = some b₁ → omap f l₂ = some b₂ → omap f (l₁ ++ l₂) = some (b₁ ++ b₂) := by
  intro l₁
  induction l₁ with
  | nil =>
    intro b₁ l₂ b₂ h₁ h₂
    simp only [omap] at h₁
    obtain rfl : b₁ = [] := (Option.some.inj h₁).symm
    simpa using h₂
  | cons a l ih =>
    intro b₁ l₂ b₂ h₁ h₂
    cases hfa : f a with
    | none => rw [omap, hfa] at h₁; simp at h₁
    | some b =>
      cases ho : omap f l with
      | none => rw [omap, hfa, ho] at h₁; simp at h₁
      | some bs =>
        rw [omap, hfa, ho] at h₁
        simp at h₁
        subst h₁
        simp [omap, hfa, ih ho h₂]

theorem build_ok_elim {e : String → Option Vec} {n : Vec → Vec} {menu : List MenuItem}
    {vecs : List Vec} (h : build_faiss_index e n menu = .ok vecs) :
    ∃ ds es, omap descOf menu = some ds ∧ omap e ds = some es ∧ vecs = es.map n ∧
      menu.isEmpty = false := by
  unfold build_faiss_index at h
  split at h
  · simp at h
  next hm =>
    split at h
    next h1 => simp at h
    next ds h1 =>
      split at h
      next h2 => simp at h
      next es h2 =>
        exact ⟨ds, es, h1, h2, (Except.ok.inj h).symm, Bool.eq_false_iff.mpr hm⟩

theorem build_length {e : String → Option Vec} {n : Vec → Vec} {menu : List MenuItem}
    {vecs : List Vec} (h : build_faiss_index e n menu = .ok vecs) :
    vecs.length = menu.length := by
  obtain ⟨ds, es, h1, h2, rfl, -⟩ := build_ok_elim h
  rw [List.length_map, omap_length h2, omap_length h1]

theorem build_append {e : String → Option Vec} {n : Vec → Vec} {menu : List MenuItem}
    {vecs : List Vec} {item : MenuItem} {d : String} {w : Vec}
    (h : build_faiss_index e n menu = .ok vecs)
    (hd : descOf item = some d) (hw : e d = some w) :
    build_faiss_index e n (menu ++ [item]) = .ok (vecs ++ [n w]) := by
  obtain ⟨ds, es, h1, h2, rfl, -⟩ := build_ok_elim h
  have hd' : omap descOf (menu ++ [item]) = some (ds ++ [d]) :=
    omap_append_some h1 (by simp [omap, hd])
  have hw' : omap e (ds ++ [d]) = some (es ++ [w]) :=
    omap_append_some h2 (by simp [omap, hw])
  unfold build_faiss_index
  rw [if_neg (by simp), hd']
  simp [hw']

theorem add_ok_true_elim {e : String → Option Vec} {n : Vec → Vec} {st : RAGState}
    {item : MenuItem} {st2 : RAGState}
    (h : add_menu_item e n st item = (st2, .ok true)) :
    validate_menu_item item = true ∧
      ∃ vecs, build_faiss_index e n (st.menu_data ++ [item]) = .ok vecs ∧
        st2 = ⟨st.menu_data ++ [item], some vecs⟩ := by
  cases hv : validate_menu_item item with
  | false =>
    simp only [add_menu_item, hv, Bool.false_eq_true, if_false] at h
    injection h with h1 h2
    exact absurd (Except.ok.inj h2) (by simp)
  | true =>
    simp only [add_menu_item, hv, if_true] at h
    cases hb : build_faiss_index e n (st.menu_data ++ [item]) with
    | ok vecs =>
      rw [hb] at h
      injection h with h1 h2
      exact ⟨rfl, vecs, rfl, h1.symm⟩
    | error er =>
      rw [hb] at h
      injection h with h1 h2
      simp at h2

theorem add_error_elim {e : String → Option Vec} {n : Vec → Vec} {st : RAGState}
    {item : MenuItem} {st2 : RAGState} {er : PyErr}
    (h : add_menu_item e n st item = (st2, .error er)) :
    validate_menu_item item = true ∧
      build_faiss_index e n (st.menu_data ++ [item]) = .error er ∧
      st2 = ⟨st.menu_data ++ [item], st.index⟩ := by
  cases hv : validate_menu_item item with
  | false =>
    simp only [add_menu_item, hv, Bool.false_eq_true, if_false] at h
    injection h with h1 h2
    simp at h2
  | true =>
    simp only [add_menu_item, hv, if_true] at h
    cases hb : build_faiss_index e n (st.menu_data ++ [item]) with
    | ok vecs =>
      rw [hb] at h
      injection h with h1 h2
      simp at h2
    | error er2 =>
      rw [hb] at h
      injection h with h1 h2
      exact ⟨rfl, by rw [Except.error.inj h2], h1.symm⟩

/-! ## Claim C6 -/

/-- C6: `add_menu_item` on a record failing validation returns `false`
and returns with the state exactly as it was, so record count and index
size are unchanged. -/
theorem c6_add_invalid_noop : ∀ (e : String → Option Vec) (n : Vec → Vec)
    (st : RAGState) (item : MenuItem),
    validate_menu_item item = false → add_menu_item e n st item = (st, .ok false) := by
  intro e n st item h
  simp [add_menu_item, h]

/-- C6 witness: adding a record without a `description` key to the
one-item state leaves it untouched and returns `false`. -/
theorem c6_witness : validate_menu_item itemNoDesc = false ∧
    add_menu_item encodeConst id st1 itemNoDesc = (st1, .ok false) :=
  ⟨by decide, c6_add_invalid_noop encodeConst id st1 itemNoDesc (by decide)⟩

/-! ## Claim C8 -/

/-- C8 (amended): building the index from zero records fails with the
empty-index error, and initialization over any corpus that loads to zero
records (an empty corpus, or a text corpus whose every segment is
dropped) fails fast with that error.  (A `.json` corpus is returned by
`_load_menu` without validation, so an all-invalid JSON corpus can still
initialize; see the counterexample.) -/
theorem c8_empty_build_fails :
    (∀ (e : String → Option Vec) (n : Vec → Vec),
      build_faiss_index e n [] = .error .noMenuData) ∧
    (∀ (e : String → Option Vec) (n : Vec → Vec) (c : Corpus),
      load_menu c = [] → ragInit e n c = .error .noMenuData) := by
  constructor
  · intro e n; rfl
  · intro e n c h
    unfold ragInit
    rw [h]
    rfl

/-- C8 witness: initializing over the empty JSON corpus fails with the
empty-index error. -/
theorem c8_witness : ragInit encodeConst id (.jsonArr []) = .error .noMenuData :=
  c8_empty_build_fails.2 encodeConst id (.jsonArr []) rfl

/-- C8 counterexample: a JSON corpus whose only record is invalid (empty
`description`) initializes successfully into an operable engine, because
the JSON branch of `_load_menu` performs no validation. -/
theorem c8_all_invalid_json_initializes :
    ragInit encodeConst id (.jsonArr [itemEmptyDesc]) = .ok ⟨[itemEmptyDesc], some [[1]]⟩ ∧
    validate_menu_item itemEmptyDesc = false :=
  ⟨rfl, by decide⟩

/-! ## Claim C2 -/

/-- C2 (amended): when the embedding call raises during `search_index`
on an initialized engine, the exception is caught by the surrounding
`try/except` and the call returns the empty result list — it is *not*
propagated to the caller. -/
theorem c2_search_swallows_embed_failure : ∀ (e : String → Option Vec) (n : Vec → Vec)
    (st : RAGState) (q : String) (k : ℕ) (t : ℚ) (vecs : List Vec),
    st.index = some vecs → e q = none →
    search_index e n st q k t = .ok [] := by
  intro e n st q k t vecs hi hq
  unfold search_index
  rw [hi, hq]

/-- C2 counterexample: on an initialized one-item engine whose embedder
raises on every query, `search_index` returns `ok []` instead of
propagating an error. -/
theorem c2_embed_failure_not_propagated :
    search_index encodeNone id st1 "q" 5 (3/10) = .ok ([] : List SearchResult) := rfl

/-- C2 witness for the amended theorem at concrete inputs. -/
theorem c2_witness : search_index encodeNone id st1 "tea" 3 (1/2) = .ok ([] : List SearchResult) :=
  c2_search_swallows_embed_failure encodeNone id st1 "tea" 3 (1/2) [[1]] rfl rfl

/-! ## Claim C5 -/

/-- C5 (amended): after a successful `__init__` and after a successful
`add_menu_item` the number of index vectors equals the number of records;
but a *failed* rebuild inside `add_menu_item` is not rolled back: the
record is already appended while the old index stays, so the two counts
go out of sync by one. -/
theorem c5_index_menu_parity : ∀ (e : String → Option Vec) (n : Vec → Vec),
    (∀ (c : Corpus) (st : RAGState), ragInit e n c = .ok st →
      indexSize st = st.menu_data.length) ∧
    (∀ (st : RAGState) (item : MenuItem) (st2 : RAGState),
      add_menu_item e n st item = (st2, .ok true) →
      indexSize st2 = st2.menu_data.length) ∧
    (∀ (st : RAGState) (item : MenuItem) (st2 : RAGState) (er : PyErr),
      add_menu_item e n st item = (st2, .error er) →
      st2.menu_data.length = st.menu_data.length + 1 ∧ st2.index = st.index) := by
  intro e n
  refine ⟨?_, ?_, ?_⟩
  · intro c st h
    unfold ragInit at h
    cases hb : build_faiss_index e n (load_menu c) with
    | ok vecs =>
      rw [hb] at h
      rw [(Except.ok.inj h).symm]
      simp [indexSize, build_length hb]
    | error er => rw [hb] at h; simp at h
  · intro st item st2 h
    obtain ⟨-, vecs, hb, rfl⟩ := add_ok_true_elim h
    simp [indexSize, build_length hb]
  · intro st item st2 er h
    obtain ⟨-, -, rfl⟩ := add_error_elim h
    simp

/-- C5 witness: successful initialization over a one-record corpus gives
one index vector for one record. -/
theorem c5_witness :
    indexSize ⟨[itemPho], some [[1]]⟩ = (RAGState.mk [itemPho] (some [[1]])).menu_data.length :=
  (c5_index_menu_parity encodeConst id).1 (.jsonArr [itemPho]) ⟨[itemPho], some [[1]]⟩ rfl

/-- C5 counterexample: an embed failure during `add_menu_item` leaves
the appended record in the store (2 records) while the index still holds
1 vector — the counts are left out of sync, with no rollback. -/
theorem c5_failed_embed_out_of_sync :
    (add_menu_item encodeFailTea id st1 itemTea).2 = .error .encodeFail ∧
    (add_menu_item encodeFailTea id st1 itemTea).1.menu_data.length = 2 ∧
    indexSize (add_menu_item encodeFailTea id st1 itemTea).1 = 1 :=
  ⟨rfl, rfl, rfl⟩

/-! ## Claim C1 -/

/-- C1 (amended): a successful `add_menu_item` on a consistent engine
state rebuilds the index from every record; because the embedder is a
deterministic function, the rebuilt index is the old vector list with
exactly one new vector appended — all pre-existing positions hold their
old vectors. -/
theorem c1_add_item_appends_one_vector : ∀ (e : String → Option Vec) (n : Vec → Vec)
    (st : RAGState) (item : MenuItem) (vecs : List Vec) (st2 : RAGState)
    (d : String) (w : Vec),
    st.index = some vecs →
    build_faiss_index e n st.menu_data = .ok vecs →
    descOf item = some d → e d = some w →
    add_menu_item e n st item = (st2, .ok true) →
    st2 = ⟨st.menu_data ++ [item], some (vecs ++ [n w])⟩ := by
  intro e n st item vecs st2 d w hi hb hd hw hadd
  obtain ⟨-, vecs2, hb2, hst⟩ := add_ok_true_elim hadd
  rw [build_append hb hd hw] at hb2
  rw [hst, Except.ok.inj hb2]

/-- C1 counterexample: the batch of texts handed to the embedding model
by `add_menu_item` (via the full `_build_faiss_index` rebuild) contains
the text of the *pre-existing* record, not only the new record's text. -/
theorem c1_add_item_reembeds_existing :
    addItemEncodedTexts [itemPho] itemTea = ["Pho: soup", "Tea: drink"] ∧
    descOf itemTea = some "Tea: drink" ∧ ("Pho: soup" : String) ≠ "Tea: drink" := by
  exact ⟨rfl, rfl, by decide⟩

/-- C1 witness: on a consistent one-record state, a successful add ends
with the old vector at position 0 and the new record's vector appended. -/
theorem c1_witness :
    add_menu_item encodeTwo id st1 itemTea = (⟨[itemPho, itemTea], some [[1], [2]]⟩, .ok true) ∧
    (⟨[itemPho, itemTea], some [[1], [2]]⟩ : RAGState) =
      ⟨st1.menu_data ++ [itemTea], some ([[1]] ++ [id [2]])⟩ :=
  ⟨rfl, c1_add_item_appends_one_vector encodeTwo id st1 itemTea [[1]] _ "Tea: drink" [2]
    rfl rfl rfl rfl rfl⟩

end RagSys

namespace RagSys

/-! ## Claim C3 -/

/-- C3 (amended): every record admitted by the `---`-text branch of
`_load_menu` passes `_validate_menu_item` (name and description present
and non-empty; the parser strips every value, and invalid segments are
dropped without raising).  The `.json` branch admits records without
validation; see the counterexample. -/
theorem c3_text_load_validates : ∀ (content : String) (item : MenuItem),
    item ∈ load_menu (.textFmt content) → validate_menu_item item = true := by
  intro content item h
  simp only [load_menu, parseText] at h
  obtain ⟨raw, -, hseg⟩ := List.mem_filterMap.mp h
  simp only [parseSegment] at hseg
  split at hseg
  · exact absurd hseg (by simp)
  · split at hseg
    next hv => rw [← Option.some.inj hseg]; exact hv
    next => exact absurd hseg (by simp)

/-- C3 counterexample: a JSON corpus record with no `description` key is
admitted to the store as-is by `_load_menu`, although it fails
validation. -/
theorem c3_json_admits_invalid :
    load_menu (.jsonArr [itemNoDesc]) = [itemNoDesc] ∧
    itemNoDesc.description = none ∧ validate_menu_item itemNoDesc = false :=
  ⟨rfl, rfl, by decide⟩

/-- C3 witness: the record parsed from the valid segment of the concrete
text corpus is validated. -/
theorem c3_witness : validate_menu_item itemPho = true :=
  c3_text_load_validates textCorpus itemPho (by decide)

/-! ## Search-order machinery (faiss flat search model) -/

theorem kept_pairwise (vecs : List Vec) (q : Vec) (k : ℕ) (t : ℚ) :
    (keptPairs vecs q k t).Pairwise pairOrder := by
  have hs : (List.insertionSort pairOrder (scoredPairs vecs q)).Pairwise pairOrder :=
    List.sorted_insertionSort pairOrder (scoredPairs vecs q)
  have ht : (faissTopK vecs q k).Pairwise pairOrder :=
    hs.sublist (List.take_sublist k (List.insertionSort pairOrder (scoredPairs vecs q)))
  exact ht.sublist (List.filter_sublist (faissTopK vecs q k))

theorem kept_nodup_fst (vecs : List Vec) (q : Vec) (k : ℕ) (t : ℚ) :
    ((keptPairs vecs q k t).map Prod.fst).Nodup := by
  have h0 : (scoredPairs vecs q).map Prod.fst = List.range vecs.length := by
    rw [scoredPairs, List.map_map]
    exact List.enum_map_fst vecs
  have h1 : ((List.insertionSort pairOrder (scoredPairs vecs q)).map Prod.fst).Nodup := by
    have hperm := (List.perm_insertionSort pairOrder (scoredPairs vecs q)).map Prod.fst
    exact hperm.nodup_iff.mpr (h0 ▸ List.nodup_range vecs.length)
  have h2 : ((faissTopK vecs q k).map Prod.fst).Nodup :=
    h1.sublist ((List.take_sublist k _).map Prod.fst)
  exact h2.sublist ((List.filter_sublist (faissTopK vecs q k)).map Prod.fst)

theorem kept_strict (vecs : List Vec) (q : Vec) (k : ℕ) (t : ℚ) :
    (keptPairs vecs q k t).Pairwise
      (fun a b => b.2 ≤ a.2 ∧ (a.2 = b.2 → a.1 < b.1)) := by
  have hp := kept_pairwise vecs q k t
  have hne : (keptPairs vecs q k t).Pairwise (fun a b => a.1 ≠ b.1) :=
    List.pairwise_map.mp (kept_nodup_fst vecs q k t)
  refine (hp.and hne).imp ?_
  rintro a b ⟨hord, hne2⟩
  rcases hord with hlt | ⟨heq, hle⟩
  · exact ⟨hlt.le, fun he => absurd hlt (by rw [he]; exact lt_irrefl _)⟩
  · exact ⟨heq.ge, fun _ => lt_of_le_of_ne hle hne2⟩

theorem mkResult_score {menu : List MenuItem} {p : ℕ × ℚ} {r : SearchResult}
    (h : mkResult menu p = some r) : r.similarity_score = p.2 := by
  unfold mkResult at h
  split at h
  · simp at h
  · split at h
    · rw [← Option.some.inj h]
    · simp at h

theorem formatResults_scores {menu : List MenuItem} :
    ∀ {ps : List (ℕ × ℚ)} {rs : List SearchResult}, formatResults menu ps = some rs →
      rs.map SearchResult.similarity_score = ps.map Prod.snd := by
  intro ps
  induction ps with
  | nil =>
    intro rs h
    simp only [formatResults] at h
    obtain rfl : rs = [] := (Option.some.inj h).symm
    simp
  | cons p ps ih =>
    intro rs h
    simp only [formatResults] at h
    cases hm : mkResult menu p with
    | none => rw [hm] at h; simp at h
    | some r =>
      cases hf : formatResults menu ps with
      | none => rw [hm, hf] at h; simp at h
      | some rs0 =>
        rw [hm, hf] at h
        obtain rfl : rs = r :: rs0 := (Option.some.inj h).symm
        simp [ih hf, mkResult_score hm]

theorem search_ok_cases {e : String → Option Vec} {n : Vec → Vec} {st : RAGState}
    {q : String} {k : ℕ} {t : ℚ} {rs : List SearchResult}
    (h : search_index e n st q k t = .ok rs) :
    rs = [] ∨ ∃ vecs qe, st.index = some vecs ∧ e q = some qe ∧
      formatResults st.menu_data
        (keptPairs vecs (n qe) (min k st.menu_data.length) t) = some rs := by
  unfold search_index at h
  cases hi : st.index with
  | none => rw [hi] at h; simp at h
  | some vecs =>
    rw [hi] at h
    dsimp only at h
    cases hq : e q with
    | none =>
      rw [hq] at h
      dsimp only at h
      exact Or.inl (Except.ok.inj h).symm
    | some qe =>
      rw [hq] at h
      dsimp only at h
      cases hf : formatResults st.menu_data
          (keptPairs vecs (n qe) (min k st.menu_data.length) t) with
      | none =>
        rw [hf] at h
        dsimp only at h
        exact Or.inl (Except.ok.inj h).symm
      | some rs0 =>
        rw [hf] at h
        dsimp only at h
        exact Or.inr ⟨vecs, qe, rfl, rfl, by rw [hf, Except.ok.inj h]⟩

theorem search_scores_ge {e : String → Option Vec} {n : Vec → Vec} {st : RAGState}
    {q : String} {k : ℕ} {t : ℚ} {rs : List SearchResult}
    (h : search_index e n st q k t = .ok rs) :
    ∀ r ∈ rs, t ≤ r.similarity_score := by
  rcases search_ok_cases h with rfl | ⟨vecs, qe, -, -, hf⟩
  · intro r hr; simp at hr
  · intro r hr
    have hsc := formatResults_scores hf
    have hmem : r.similarity_score ∈
        (keptPairs vecs (n qe) (min k st.menu_data.length) t).map Prod.snd := by
      rw [← hsc]
      exact List.mem_map_of_mem SearchResult.similarity_score hr
    obtain ⟨p, hp, hps⟩ := List.mem_map.mp hmem
    have hkeep := (List.mem_filter.mp hp).2
    rw [← hps]
    exact of_decide_eq_true hkeep

theorem search_sorted {e : String → Option Vec} {n : Vec → Vec} {st : RAGState}
    {q : String} {k : ℕ} {t : ℚ} {rs : List SearchResult}
    (h : search_index e n st q k t = .ok rs) :
    rs.Pairwise (fun r s => s.similarity_score ≤ r.similarity_score) := by
  rcases search_ok_cases h with rfl | ⟨vecs, qe, -, -, hf⟩
  · simp
  · have hker := kept_pairwise vecs (n qe) (min k st.menu_data.length) t
    have hsnd : ((keptPairs vecs (n qe) (min k st.menu_data.length) t).map
        Prod.snd).Pairwise (fun x y : ℚ => y ≤ x) := by
      refine List.pairwise_map.mpr (hker.imp ?_)
      rintro a b (hlt | ⟨heq, -⟩)
      · exact hlt.le
      · exact heq.ge
    rw [← formatResults_scores hf] at hsnd
    exact List.pairwise_map.mp hsnd

theorem topk_maximal (vecs : List Vec) (q : Vec) (k : ℕ) :
    ∀ a ∈ faissTopK vecs q k, ∀ b ∈ scoredPairs vecs q,
      b ∉ faissTopK vecs q k → b.2 ≤ a.2 := by
  intro a ha b hb hnb
  have hsort : (List.insertionSort pairOrder (scoredPairs vecs q)).Pairwise pairOrder :=
    List.sorted_insertionSort pairOrder (scoredPairs vecs q)
  have hbs : b ∈ List.insertionSort pairOrder (scoredPairs vecs q) :=
    ((List.perm_insertionSort pairOrder (scoredPairs vecs q)).mem_iff).mpr hb
  have hsplit := List.take_append_drop k (List.insertionSort pairOrder (scoredPairs vecs q))
  have hpw : ((List.insertionSort pairOrder (scoredPairs vecs q)).take k ++
      (List.insertionSort pairOrder (scoredPairs vecs q)).drop k).Pairwise pairOrder := by
    rw [hsplit]; exact hsort
  have hbd : b ∈ (List.insertionSort pairOrder (scoredPairs vecs q)).drop k := by
    have hbs2 : b ∈ (List.insertionSort pairOrder (scoredPairs vecs q)).take k ++
        (List.insertionSort pairOrder (scoredPairs vecs q)).drop k := by
      rw [hsplit]; exact hbs
    rcases List.mem_append.mp hbs2 with h1 | h1
    · exact absurd h1 hnb
    · exact h1
  have hord : pairOrder a b := (List.pairwise_append.mp hpw).2.2 a ha b hbd
  rcases hord with hlt | ⟨heq, -⟩
  · exact hlt.le
  · exact heq.ge

end RagSys

namespace RagSys

/-! ## Claim C4 -/

/-- C4: the kept (position, score) pairs of a search are in
non-increasing score order with equal scores ordered by strictly
ascending record position; the result list returned by `search_index`
is in non-increasing score order; and the `k` pairs selected by the
index search all score at least as high as every stored pair left out. -/
theorem c4_search_order :
    (∀ (vecs : List Vec) (q : Vec) (k : ℕ) (t : ℚ),
      (keptPairs vecs q k t).Pairwise
        fun a b => b.2 ≤ a.2 ∧ (a.2 = b.2 → a.1 < b.1)) ∧
    (∀ (e : String → Option Vec) (n : Vec → Vec) (st : RAGState) (q : String)
        (k : ℕ) (t : ℚ) (rs : List SearchResult),
      search_index e n st q k t = .ok rs →
      rs.Pairwise fun r s => s.similarity_score ≤ r.similarity_score) ∧
    (∀ (vecs : List Vec) (q : Vec) (k : ℕ), ∀ a ∈ faissTopK vecs q k,
      ∀ b ∈ scoredPairs vecs q, b ∉ faissTopK vecs q k → b.2 ≤ a.2) :=
  ⟨kept_strict, fun _ _ _ _ _ _ _ h => search_sorted h, topk_maximal⟩

/-- C4 witness: a concrete two-record search returns its two results in
descending score order. -/
theorem c4_witness :
    List.Pairwise (fun r s : SearchResult => s.similarity_score ≤ r.similarity_score)
      [⟨"Pho", "soup", "N/A", "N/A", 1⟩, ⟨"Tea", "drink", "N/A", "N/A", 0⟩] :=
  c4_search_order.2.1 encodePlane id st2 "soup" 5 (-1) _
    (by norm_num [search_index, keptPairs, faissTopK, scoredPairs, dot, pairOrder,
      mkResult, formatResults, st2, itemPho, itemTea, encodePlane, List.enum,
      List.enumFrom])

/-! ## Claim C7 -/

/-- C7: the threshold filter of `search_index` is inclusive — among the
top-k candidate pairs, exactly those with `score >= threshold` are kept
and every pair with score strictly below the threshold is dropped; hence
every returned result scores at least the threshold. -/
theorem c7_threshold_inclusive :
    (∀ (vecs : List Vec) (q : Vec) (k : ℕ) (t : ℚ) (p : ℕ × ℚ),
      p ∈ keptPairs vecs q k t ↔ p ∈ faissTopK vecs q k ∧ t ≤ p.2) ∧
    (∀ (e : String → Option Vec) (n : Vec → Vec) (st : RAGState) (q : String)
        (k : ℕ) (t : ℚ) (rs : List SearchResult),
      search_index e n st q k t = .ok rs → ∀ r ∈ rs, t ≤ r.similarity_score) := by
  constructor
  · intro vecs q k t p
    constructor
    · intro hp
      have h := List.mem_filter.mp hp
      exact ⟨h.1, of_decide_eq_true h.2⟩
    · rintro ⟨h1, h2⟩
      exact List.mem_filter.mpr ⟨h1, decide_eq_true h2⟩
  · intro e n st q k t rs h
    exact search_scores_ge h

/-- C7 witness: with threshold 0.3 the zero-scoring second record is
dropped and the returned result scores at least 0.3. -/
theorem c7_witness : (3/10 : ℚ) ≤ (SearchResult.mk "Pho" "soup" "N/A" "N/A" 1).similarity_score :=
  c7_threshold_inclusive.2 encodePlane id st2 "soup" 5 (3/10)
    [⟨"Pho", "soup", "N/A", "N/A", 1⟩]
    (by norm_num [search_index, keptPairs, faissTopK, scoredPairs, dot, pairOrder,
      mkResult, formatResults, st2, itemPho, itemTea, encodePlane, List.enum,
      List.enumFrom])
    _ (by simp)

/-! ## Claim C10 -/

/-- C10: `get_context_for_llms` renders exactly the results of
`search_index` called with the fixed default threshold `0.3` (the entry
point takes no threshold parameter, so a caller cannot change it), and
every result of that search — hence every item rendered into the
context — scores at least `0.3`. -/
theorem c10_context_fixed_threshold : ∀ (e : String → Option Vec) (n : Vec → Vec)
    (st : RAGState) (q : String) (k : ℕ),
    (get_context_for_llms e n st q k = (search_index e n st q k (3/10)).map renderContext) ∧
    (∀ rs, search_index e n st q k (3/10) = .ok rs →
      ∀ r ∈ rs, (3/10 : ℚ) ≤ r.similarity_score) := by
  intro e n st q k
  constructor
  · unfold get_context_for_llms
    cases search_index e n st q k (3/10) <;> rfl
  · intro rs h
    exact search_scores_ge h

/-- C10 witness: on a concrete engine the context entry point agrees
with search at threshold 0.3, whose only result scores at least 0.3. -/
theorem c10_witness :
    get_context_for_llms encodePlane id st2 "soup" 1 =
      (search_index encodePlane id st2 "soup" 1 (3/10)).map renderContext ∧
    (3/10 : ℚ) ≤ (SearchResult.mk "Pho" "soup" "N/A" "N/A" 1).similarity_score :=
  ⟨(c10_context_fixed_threshold encodePlane id st2 "soup" 1).1,
   (c10_context_fixed_threshold encodePlane id st2 "soup" 1).2
    [⟨"Pho", "soup", "N/A", "N/A", 1⟩]
    (by norm_num [search_index, keptPairs, faissTopK, scoredPairs, dot, pairOrder,
      mkResult, formatResults, st2, itemPho, itemTea, encodePlane, List.enum,
      List.enumFrom])
    _ (by simp)⟩

end RagSys

namespace RagSys

/-! ## Claim C9: rendering machinery -/

theorem infix_append_right {x y : String} {l : List Char} (h : l <:+: x.data) :
    l <:+: (x ++ y).data := by
  rw [String.data_append]
  obtain ⟨s, t, hst⟩ := h
  refine ⟨s, t ++ y.data, ?_⟩
  rw [← hst]
  simp

theorem infix_append_left {x y : String} {l : List Char} (h : l <:+: y.data) :
    l <:+: (x ++ y).data := by
  rw [String.data_append]
  obtain ⟨s, t, hst⟩ := h
  refine ⟨x.data ++ s, t, ?_⟩
  rw [← hst]
  simp

theorem resultBlock_name (i : ℕ) (r : SearchResult) :
    (toString i ++ ". **" ++ r.name ++ "**").data <:+: (resultBlock i r).data := by
  unfold resultBlock
  exact infix_append_right (infix_append_right (infix_append_right (infix_append_right
    (infix_append_right (infix_append_right (infix_append_right List.infix_rfl))))))

theorem resultBlock_price (i : ℕ) (r : SearchResult) :
    (" (Price: " ++ r.price ++ " VND)").data <:+: (resultBlock i r).data := by
  unfold resultBlock
  exact infix_append_right (infix_append_right (infix_append_right (infix_append_right
    (infix_append_right (infix_append_right (infix_append_left List.infix_rfl))))))

theorem resultBlock_desc (i : ℕ) (r : SearchResult) :
    ("   Description: " ++ r.description).data <:+: (resultBlock i r).data := by
  unfold resultBlock
  exact infix_append_right (infix_append_right (infix_append_right (infix_append_right
    (infix_append_left List.infix_rfl))))

theorem resultBlock_cat (i : ℕ) (r : SearchResult) (hc : r.category ≠ "N/A") :
    ("   Category: " ++ r.category).data <:+: (resultBlock i r).data := by
  unfold resultBlock
  rw [if_neg hc]
  exact infix_append_right (infix_append_right (infix_append_left
    (infix_append_right List.infix_rfl)))

theorem resultBlock_rel (i : ℕ) (r : SearchResult) :
    ("   Relevance: " ++ fmt2 r.similarity_score).data <:+: (resultBlock i r).data := by
  unfold resultBlock
  exact infix_append_right (infix_append_left List.infix_rfl)

theorem renderBlocksContainFrag : ∀ (rs : List SearchResult) (i j : ℕ) (r : SearchResult),
    rs.get? j = some r → (resultBlock (i + j) r).data <:+: (renderBlocks i rs).data := by
  intro rs
  induction rs with
  | nil => intro i j r h; simp at h
  | cons r0 rs ih =>
    intro i j r h
    cases j with
    | zero =>
      have hr : r0 = r := by simpa using h
      subst hr
      simp only [renderBlocks, Nat.add_zero]
      exact infix_append_right List.infix_rfl
    | succ j =>
      have h' : rs.get? j = some r := by simpa using h
      have hih := ih (i + 1) j r h'
      simp only [renderBlocks]
      rw [show i + (j + 1) = i + 1 + j by omega]
      exact infix_append_left hih

theorem renderContainsFrag {results : List SearchResult} {j : ℕ} {r : SearchResult}
    (h : results.get? j = some r) {l : List Char}
    (hf : l <:+: (resultBlock (j + 1) r).data) : l <:+: (renderContext results).data := by
  have hne : results ≠ [] := by
    intro he
    rw [he] at h
    simp at h
  rw [renderContext, if_neg hne]
  have hb := renderBlocksContainFrag results 1 j r h
  rw [Nat.add_comm 1 j] at hb
  exact infix_append_left (hf.trans hb)

/-- C9: rendering the empty result list returns the fixed "no results"
sentinel; rendering any non-empty result list produces a string that,
for the `j`-th result, contains its 1-based number with its name, its
price (or the `N/A` placeholder) in the price field, its description,
its category when one is present, and its similarity score formatted to
2 decimals.  The rendering is a pure function of the result list, hence
deterministic. -/
theorem c9_render_context :
    renderContext [] = "No relevant menu items found" ∧
    ∀ (results : List SearchResult) (j : ℕ) (r : SearchResult), results.get? j = some r →
      ((toString (j + 1) ++ ". **" ++ r.name ++ "**").data <:+: (renderContext results).data) ∧
      ((" (Price: " ++ r.price ++ " VND)").data <:+: (renderContext results).data) ∧
      (("   Description: " ++ r.description).data <:+: (renderContext results).data) ∧
      (r.category ≠ "N/A" →
        ("   Category: " ++ r.category).data <:+: (renderContext results).data) ∧
      (("   Relevance: " ++ fmt2 r.similarity_score).data <:+: (renderContext results).data) := by
  refine ⟨rfl, ?_⟩
  intro results j r h
  exact ⟨renderContainsFrag h (resultBlock_name (j + 1) r),
         renderContainsFrag h (resultBlock_price (j + 1) r),
         renderContainsFrag h (resultBlock_desc (j + 1) r),
         fun hc => renderContainsFrag h (resultBlock_cat (j + 1) r hc),
         renderContainsFrag h (resultBlock_rel (j + 1) r)⟩

/-- C9 witness: all rendered fields of a concrete one-result context. -/
theorem c9_witness :
    ((toString (0 + 1) ++ ". **" ++ resFull.name ++ "**").data <:+:
      (renderContext [resFull]).data) ∧
    ((" (Price: " ++ resFull.price ++ " VND)").data <:+: (renderContext [resFull]).data) ∧
    (("   Description: " ++ resFull.description).data <:+: (renderContext [resFull]).data) ∧
    (("   Category: " ++ resFull.category).data <:+: (renderContext [resFull]).data) ∧
    (("   Relevance: " ++ fmt2 resFull.similarity_score).data <:+:
      (renderContext [resFull]).data) := by
  have h := c9_render_context.2 [resFull] 0 resFull rfl
  exact ⟨h.1, h.2.1, h.2.2.1, h.2.2.2.1 (by decide), h.2.2.2.2⟩

end RagSys
